import Mathlib

/-!
# Verification of the guess_the_sharpe core

Shallow embedding of the repository's statistics engine (`src/dist.rs`) and
game controller (`src/app.rs`). Floating-point values are embedded as real
numbers; the IEEE infinities used as fold seeds in `sample_min_max` are
embedded via `EReal`. The ChaCha20 RNG is embedded as an abstract stream of
uniform draws together with a position counter, so that draw consumption and
determinism are observable. The external normal sampler (`rand_distr`), which
is not part of this repository, is embedded as a parameter `norm : ℝ → ℝ`
transforming one uniform draw into one standard-normal variate, per the
spec's determinism contract (one draw consumed per sample).
-/

namespace GuessTheSharpe

/-! ## Parsing the guess buffer (Rust `str::parse::<f64>`)

An executable rational-valued model of Rust's `f64` parsing on numeric
strings: optional sign, decimal mantissa with at most one dot and at least
one digit, optional `e`/`E` exponent with mandatory digits. The special
forms `inf`/`infinity`/`nan` are not representable in the real-valued
embedding and are mapped to parse failure; they are unreachable from the
controller's input alphabet (digits, dot, minus). -/

/-- Numeric value of a digit character. -/
def digitVal (c : Char) : ℕ := c.toNat - 48

/-- Value of a digit string read in base 10. -/
def digitsVal (cs : List Char) : ℕ := cs.foldl (fun a c => 10 * a + digitVal c) 0

/-- Parse an unsigned decimal mantissa: digits with at most one dot,
at least one digit overall. -/
def parseMantissa (cs : List Char) : Option ℚ :=
  match cs.splitOn '.' with
  | [ds] =>
    if !ds.isEmpty && ds.all Char.isDigit then some (digitsVal ds : ℚ) else none
  | [ip, fp] =>
    if (!ip.isEmpty || !fp.isEmpty) && ip.all Char.isDigit && fp.all Char.isDigit then
      some ((digitsVal ip : ℚ) + (digitsVal fp : ℚ) / 10 ^ fp.length)
    else none
  | _ => none

/-- Parse an exponent part: optional sign then at least one digit. -/
def parseExpPart (cs : List Char) : Option ℤ :=
  match cs with
  | '+' :: rest =>
    if !rest.isEmpty && rest.all Char.isDigit then some (digitsVal rest : ℤ) else none
  | '-' :: rest =>
    if !rest.isEmpty && rest.all Char.isDigit then some (-(digitsVal rest : ℤ)) else none
  | _ =>
    if !cs.isEmpty && cs.all Char.isDigit then some (digitsVal cs : ℤ) else none

/-- Parse an unsigned floating-point literal (mantissa with optional
exponent). -/
def parseUnsigned (cs : List Char) : Option ℚ :=
  match cs.splitOn 'e' with
  | [m] => parseMantissa m
  | [m, ex] =>
    (parseMantissa m).bind fun q => (parseExpPart ex).map fun e => q * (10 : ℚ) ^ e
  | _ => none

/-- Model of Rust's `"...".parse::<f64>()` on numeric strings, returning the
exactly represented rational (rounding to the nearest double is immaterial to
the claims, which only depend on parse success and the parsed value). -/
def parseF64 (s : String) : Option ℚ :=
  let cs := s.data.map Char.toLower
  match cs with
  | '-' :: rest => (parseUnsigned rest).map Neg.neg
  | '+' :: rest => parseUnsigned rest
  | _ => parseUnsigned cs

example : parseF64 "1" = some 1 := by rfl
example : parseF64 "1.2345" = some (12345 / 10000 : ℚ) := by
  rw [show parseF64 "1.2345" = some ((1 : ℚ) + (2345 : ℚ) / 10 ^ 4) from rfl]
  norm_num
example : parseF64 "" = none := by rfl
example : parseF64 "abc" = none := by rfl
example : parseF64 "-2.5" = some (-(5 / 2 : ℚ)) := by
  rw [show parseF64 "-2.5" = some (-((2 : ℚ) + (5 : ℚ) / 10 ^ 1)) from rfl]
  norm_num
example : parseF64 "--" = none := by rfl
example : parseF64 "1.2.3" = none := by rfl
example : parseF64 ".5" = some (1 / 2 : ℚ) := by
  rw [show parseF64 ".5" = some ((0 : ℚ) + (5 : ℚ) / 10 ^ 1) from rfl]
  norm_num
example : parseF64 "-" = none := by rfl

/-! ## Statistics engine (`src/dist.rs`)

The RNG (`ChaCha20Rng`) is embedded as an abstract stream of uniform draws
with a position counter: sampling reads the draw at the current position and
advances the position by one. -/

/-- Number of trading days in 2 years, 252 days per year. -/
def DAYS : ℕ := 504

/-- Abstract state of the ChaCha20 RNG: the deterministic stream of uniform
draws it will produce, and how many draws have been consumed. -/
structure Rng where
  stream : ℕ → ℝ
  pos : ℕ

/-- One uniform draw (`rng.sample(StandardUniform)`): read the current value
of the stream and advance the position by one. -/
noncomputable def uniformDraw (r : Rng) : ℝ × Rng :=
  (r.stream r.pos, ⟨r.stream, r.pos + 1⟩)

/-- Modelled from the spec: drawing one sample of `Normal::new(mu, sigma)`
from the external `rand_distr` crate (not part of this repository). Per the
spec's determinism contract it consumes exactly one uniform draw per sample;
`norm` is the library's fixed draw-to-standard-normal transform, kept
abstract. -/
noncomputable def normalSample (norm : ℝ → ℝ) (mu sigma : ℝ) (r : Rng) : ℝ × Rng :=
  let d := uniformDraw r
  (mu + sigma * norm d.1, d.2)

/-- Generates a random Sharpe ratio in the range of -3 to 3. -/
noncomputable def gen_rand_sharpe (r : Rng) : ℝ × Rng :=
  let d := uniformDraw r
  (d.1 * 6 - 3, d.2)

/-- The loop of `gen_return_series`: draw `n` normal samples in order. -/
noncomputable def genSeriesAux (norm : ℝ → ℝ) (mu sigma : ℝ) : ℕ → Rng → List ℝ × Rng
  | 0, r => ([], r)
  | n + 1, r =>
    let d := normalSample norm mu sigma r
    let rest := genSeriesAux norm mu sigma n d.2
    (d.1 :: rest.1, rest.2)

/-- `gen_return_series`: DAYS normal samples with daily mean `sharpe / 252`
and daily standard deviation `1 / sqrt(252)`. -/
noncomputable def gen_return_series (norm : ℝ → ℝ) (sharpe : ℝ) (r : Rng) :
    List ℝ × Rng :=
  genSeriesAux norm (sharpe / 252) (Real.sqrt 252)⁻¹ DAYS r

/-- `calc_sample_sharpe`: the annualized sample Sharpe ratio and the sample
mean. The variance divides by DAYS (population variance), as the source
does. -/
noncomputable def calc_sample_sharpe (sample : List ℝ) : ℝ × ℝ :=
  let sample_mu := sample.sum / (DAYS : ℝ)
  let sample_var := (sample.map fun x => (x - sample_mu) ^ 2).sum / (DAYS : ℝ)
  let sample_std := Real.sqrt sample_var
  ((sample_mu * 252) / (sample_std * Real.sqrt 252), sample_mu)

/-- `sample_min_max`: fold with `min`/`max` seeded at `f64::INFINITY` /
`f64::NEG_INFINITY`, embedded as the top and bottom of `EReal`. -/
noncomputable def sample_min_max (sample : List ℝ) : EReal × EReal :=
  sample.foldl (fun (p : EReal × EReal) (x : ℝ) => (min p.1 ↑x, max p.2 ↑x)) (⊤, ⊥)

/-- The `Stats` record of `dist.rs`. -/
structure Stats where
  acc_sharpe : ℝ
  sample_sharpe : ℝ
  sharpe_error : ℝ
  sample_mean : ℝ
  sample_max : EReal
  sample_min : EReal

/-- `gen_random_dist`: draw the actual Sharpe, synthesize the return series,
compute the sample statistics and the Sharpe standard error. Returns the
series, the stats, and the advanced RNG (the Rust function mutates the RNG
in place). -/
noncomputable def gen_random_dist (norm : ℝ → ℝ) (r : Rng) :
    (List ℝ × Stats) × Rng :=
  let s := gen_rand_sharpe r
  let ret := gen_return_series norm s.1 s.2
  let ss := calc_sample_sharpe ret.1
  let mm := sample_min_max ret.1
  let sharpe_error := Real.sqrt ((1 + ss.1 ^ 2 / 2) / (DAYS : ℝ)) * Real.sqrt 252
  ((ret.1, ⟨s.1, ss.1, sharpe_error, ss.2, mm.2, mm.1⟩), ret.2)

/-! ## Game controller (`src/app.rs`) -/

/-- `AppMode` of `app.rs`. -/
inductive AppMode
  | Display
  | Guessing
deriving DecidableEq

/-- `GuessState` of `app.rs`. -/
inductive GuessState
  | WaitingForGuess
  | ShowingResult
deriving DecidableEq

/-- `GuessTarget` of `app.rs`. -/
inductive GuessTarget
  | Sample
  | Actual
deriving DecidableEq

/-- The `App` struct of `app.rs`. -/
structure App where
  running : Bool
  rng : Rng
  sample : List ℝ
  acc_sharpe : ℝ
  sample_sharpe : ℝ
  mode : AppMode
  guess_state : GuessState
  guess_target : GuessTarget
  current_guess : String
  score : ℕ
  last_guess : Option ℝ
  guess_was_correct : Bool

namespace App

/-- `App::new`: seed a fresh RNG (`r0` models the OS-entropy seed), generate
the first round, initialize the guess fields. -/
noncomputable def new (norm : ℝ → ℝ) (mode : AppMode) (r0 : Rng) : App :=
  let g := gen_random_dist norm r0
  { running := true
    rng := g.2
    sample := g.1.1
    acc_sharpe := g.1.2.acc_sharpe
    sample_sharpe := g.1.2.sample_sharpe
    mode := mode
    guess_state := GuessState.WaitingForGuess
    guess_target := GuessTarget.Sample
    current_guess := ""
    score := 0
    last_guess := none
    guess_was_correct := false }

/-- `App::quit`. -/
def quit (a : App) : App := { a with running := false }

/-- `App::recalc`: regenerate the round with the held RNG; in Guessing mode
reset the round state, clear the buffer and the last guess. -/
noncomputable def recalc (norm : ℝ → ℝ) (a : App) : App :=
  let g := gen_random_dist norm a.rng
  let a2 := { a with
    sample := g.1.1
    acc_sharpe := g.1.2.acc_sharpe
    sample_sharpe := g.1.2.sample_sharpe
    rng := g.2 }
  if a.mode = AppMode.Guessing then
    { a2 with
      guess_state := GuessState.WaitingForGuess
      current_guess := ""
      last_guess := none }
  else a2

/-- `App::add_char_to_guess`. -/
def add_char_to_guess (a : App) (c : Char) : App :=
  if a.mode = AppMode.Guessing ∧ a.guess_state = GuessState.WaitingForGuess ∧
      (c.isDigit = true ∨ c = '.' ∨ c = '-') then
    { a with current_guess := a.current_guess.push c }
  else a

/-- `App::remove_char_from_guess` (Rust `String::pop` drops the last
character when the buffer is nonempty). -/
def remove_char_from_guess (a : App) : App :=
  if a.mode = AppMode.Guessing ∧ a.guess_state = GuessState.WaitingForGuess then
    { a with current_guess := ⟨a.current_guess.data.dropLast⟩ }
  else a

/-- `App::toggle_guess_target`. -/
def toggle_guess_target (a : App) : App :=
  if a.mode = AppMode.Guessing ∧ a.guess_state = GuessState.WaitingForGuess then
    { a with guess_target :=
        match a.guess_target with
        | GuessTarget.Sample => GuessTarget.Actual
        | GuessTarget.Actual => GuessTarget.Sample }
  else a

/-- `App::get_sharpe_error`: `sqrt((1 + sharpe^2 / 2) / DAYS) * sqrt(252)`. -/
noncomputable def get_sharpe_error (a : App) : ℝ :=
  Real.sqrt ((1 + a.sample_sharpe ^ 2 / 2) / (DAYS : ℝ)) * Real.sqrt 252

/-- The target-value selection inside `App::submit_guess`. -/
def target_value (a : App) : ℝ :=
  match a.guess_target with
  | GuessTarget.Sample => a.sample_sharpe
  | GuessTarget.Actual => a.acc_sharpe

open Classical in
/-- `App::submit_guess`: parse the buffer; on success record the guess,
score it against the chosen target with tolerance `0.12 * sharpe_error`,
and show the result; on failure do nothing. -/
noncomputable def submit_guess (a : App) : App :=
  if a.mode = AppMode.Guessing ∧ a.guess_state = GuessState.WaitingForGuess then
    match parseF64 a.current_guess with
    | some q =>
      let guess : ℝ := (q : ℝ)
      let sharpe_error := a.get_sharpe_error
      if |guess - a.target_value| ≤ 0.12 * sharpe_error then
        { a with
          last_guess := some guess
          score := a.score + 1
          guess_was_correct := true
          guess_state := GuessState.ShowingResult }
      else
        { a with
          last_guess := some guess
          guess_was_correct := false
          guess_state := GuessState.ShowingResult }
    | none => a
  else a

/-- `App::next_round`. -/
noncomputable def next_round (norm : ℝ → ℝ) (a : App) : App :=
  if a.mode = AppMode.Guessing ∧ a.guess_state = GuessState.ShowingResult then
    recalc norm a
  else a

end App

/-- The controller operations named by the specification, as dispatched by
the event loop in `main.rs`. -/
inductive Op
  | recalcOp
  | charInput (c : Char)
  | backspace
  | submitOp
  | nextRoundOp
  | toggleTargetOp

/-- Dispatch one operation, as the event loop does. -/
noncomputable def step (norm : ℝ → ℝ) : Op → App → App
  | Op.recalcOp, a => a.recalc norm
  | Op.charInput c, a => a.add_char_to_guess c
  | Op.backspace, a => a.remove_char_from_guess
  | Op.submitOp, a => a.submit_guess
  | Op.nextRoundOp, a => a.next_round norm
  | Op.toggleTargetOp, a => a.toggle_guess_target

/-- Run a sequence of operations. -/
noncomputable def run (norm : ℝ → ℝ) (ops : List Op) (a : App) : App :=
  ops.foldl (fun s op => step norm op s) a

/-- The controller states reachable from a fresh session by the event-loop
operations. -/
inductive Reachable (norm : ℝ → ℝ) : App → Prop
  | init (mode : AppMode) (r0 : Rng) : Reachable norm (App.new norm mode r0)
  | next (a : App) (op : Op) : Reachable norm a → Reachable norm (step norm op a)

/-! ## Concrete witnesses -/

/-- The identity as a stand-in draw-to-normal transform for concrete
instantiations. -/
def normId : ℝ → ℝ := fun x => x

/-- A concrete RNG state: the all-zero stream at position 0. -/
noncomputable def rng0 : Rng := ⟨fun _ => 0, 0⟩

/-- A concrete mid-session application in Guessing mode, waiting for a
guess, with a given buffer and a previously correct guess recorded. -/
noncomputable def exApp (buf : String) : App :=
  { running := true
    rng := rng0
    sample := []
    acc_sharpe := 0
    sample_sharpe := 0
    mode := AppMode.Guessing
    guess_state := GuessState.WaitingForGuess
    guess_target := GuessTarget.Sample
    current_guess := buf
    score := 3
    last_guess := none
    guess_was_correct := true }

/-! ## Helper lemmas -/

/-- `genSeriesAux` advances the RNG by exactly one position per sample and
never changes the stream. -/
lemma genSeriesAux_rng (norm : ℝ → ℝ) (mu sigma : ℝ) :
    ∀ (n : ℕ) (r : Rng), (genSeriesAux norm mu sigma n r).2 = ⟨r.stream, r.pos + n⟩ := by
  intro n
  induction n with
  | zero => intro r; rfl
  | succ k ih =>
    intro r
    show (genSeriesAux norm mu sigma k ⟨r.stream, r.pos + 1⟩).2 = _
    rw [ih]
    simp [Nat.add_assoc, Nat.add_comm 1 k]

/-- `genSeriesAux` produces exactly as many returns as requested. -/
lemma genSeriesAux_length (norm : ℝ → ℝ) (mu sigma : ℝ) :
    ∀ (n : ℕ) (r : Rng), (genSeriesAux norm mu sigma n r).1.length = n := by
  intro n
  induction n with
  | zero => intro r; rfl
  | succ k ih => intro r; simp [genSeriesAux, ih]

/-- The generated return series has exactly DAYS elements. -/
lemma gen_return_series_length (norm : ℝ → ℝ) (sharpe : ℝ) (r : Rng) :
    (gen_return_series norm sharpe r).1.length = DAYS :=
  genSeriesAux_length norm _ _ DAYS r

/-- `recalc` never changes the score. -/
lemma recalc_score (norm : ℝ → ℝ) (a : App) : (a.recalc norm).score = a.score := by
  unfold App.recalc
  split <;> rfl

/-- `recalc` never changes `guess_was_correct`. -/
lemma recalc_guess_was_correct (norm : ℝ → ℝ) (a : App) :
    (a.recalc norm).guess_was_correct = a.guess_was_correct := by
  unfold App.recalc
  split <;> rfl

/-! ## Claims -/

/-- C1 counterexample: a Guessing-mode application whose last guess was
correct keeps `guess_was_correct = true` across `recalc()`; the flag is not
reset as the claim states. -/
theorem c1_recalc_resets_flag_cex :
    (exApp "1").mode = AppMode.Guessing ∧ (exApp "1").guess_was_correct = true ∧
      ((exApp "1").recalc normId).guess_was_correct = true := by
  refine ⟨rfl, rfl, ?_⟩
  rw [recalc_guess_was_correct]
  rfl

/-- C1 (amended): in Guessing mode, `recalc()` resets the round state to
`WaitingForGuess`, clears `current_guess`, clears `last_guess`, leaves
`guess_was_correct` unchanged, and leaves `score` unchanged. -/
theorem c1_recalc_frame (norm : ℝ → ℝ) (a : App) (h : a.mode = AppMode.Guessing) :
    (a.recalc norm).guess_state = GuessState.WaitingForGuess ∧
      (a.recalc norm).current_guess = "" ∧
      (a.recalc norm).last_guess = none ∧
      (a.recalc norm).score = a.score ∧
      (a.recalc norm).guess_was_correct = a.guess_was_correct := by
  unfold App.recalc
  rw [if_pos h]
  exact ⟨rfl, rfl, rfl, rfl, rfl⟩

/-- C1 witness: the amended frame conditions hold at a concrete Guessing
application. -/
theorem c1_recalc_frame_witness :
    (exApp "1").mode = AppMode.Guessing ∧
      (((exApp "1").recalc normId).guess_state = GuessState.WaitingForGuess ∧
        ((exApp "1").recalc normId).current_guess = "" ∧
        ((exApp "1").recalc normId).last_guess = none ∧
        ((exApp "1").recalc normId).score = (exApp "1").score ∧
        ((exApp "1").recalc normId).guess_was_correct = (exApp "1").guess_was_correct) :=
  ⟨rfl, c1_recalc_frame normId (exApp "1") rfl⟩

/-- `gen_return_series` advances the RNG by exactly DAYS draws. -/
lemma gen_return_series_rng (norm : ℝ → ℝ) (sharpe : ℝ) (r : Rng) :
    (gen_return_series norm sharpe r).2 = ⟨r.stream, r.pos + DAYS⟩ :=
  genSeriesAux_rng norm _ _ DAYS r

/-- `gen_random_dist` advances the RNG by exactly `1 + DAYS` draws and
keeps the stream. -/
lemma gen_random_dist_rng (norm : ℝ → ℝ) (r : Rng) :
    (gen_random_dist norm r).2 = ⟨r.stream, r.pos + 1 + DAYS⟩ := by
  unfold gen_random_dist
  dsimp only
  rw [show (gen_rand_sharpe r).2 = (⟨r.stream, r.pos + 1⟩ : Rng) from rfl]
  rw [gen_return_series_rng]

/-- C3: one round consumes exactly `1 + DAYS = 505` draws from the RNG
stream — one for the actual Sharpe ratio and one per day of the return
series — and leaves the stream itself untouched. -/
theorem c3_draws_per_round (norm : ℝ → ℝ) (r : Rng) :
    (gen_random_dist norm r).2.pos = r.pos + 505 ∧
      1 + DAYS = 505 ∧
      (gen_random_dist norm r).2.stream = r.stream := by
  rw [gen_random_dist_rng]
  exact ⟨by simp [DAYS, Nat.add_assoc], rfl, rfl⟩

/-- C4: the Sharpe standard error of every generated round is nonnegative
(it is a product of square roots), and so is the controller's
`get_sharpe_error` for every application state, whatever `sample_sharpe`
is. -/
theorem c4_sharpe_error_nonneg :
    (∀ (norm : ℝ → ℝ) (r : Rng), 0 ≤ ((gen_random_dist norm r).1.2).sharpe_error) ∧
      ∀ a : App, 0 ≤ a.get_sharpe_error := by
  constructor
  · intro norm r
    show 0 ≤ Real.sqrt _ * Real.sqrt 252
    exact mul_nonneg (Real.sqrt_nonneg _) (Real.sqrt_nonneg _)
  · intro a
    exact mul_nonneg (Real.sqrt_nonneg _) (Real.sqrt_nonneg _)

/-- C6: two sessions constructed from the same seed produce identical
return series and statistics after any number of `recalc()` calls: the
statistics are a deterministic function of the threaded RNG state. -/
theorem c6_determinism (norm : ℝ → ℝ) (mode : AppMode) (r1 r2 : Rng)
    (h : r1 = r2) (n : ℕ) :
    ((App.recalc norm)^[n] (App.new norm mode r1)).sample =
        ((App.recalc norm)^[n] (App.new norm mode r2)).sample ∧
      ((App.recalc norm)^[n] (App.new norm mode r1)).acc_sharpe =
        ((App.recalc norm)^[n] (App.new norm mode r2)).acc_sharpe ∧
      ((App.recalc norm)^[n] (App.new norm mode r1)).sample_sharpe =
        ((App.recalc norm)^[n] (App.new norm mode r2)).sample_sharpe := by
  subst h
  exact ⟨rfl, rfl, rfl⟩

/-- C6 witness: determinism instantiated at a concrete seed and two
rounds. -/
theorem c6_determinism_witness :
    ((App.recalc normId)^[2] (App.new normId AppMode.Display rng0)).sample =
        ((App.recalc normId)^[2] (App.new normId AppMode.Display rng0)).sample ∧
      ((App.recalc normId)^[2] (App.new normId AppMode.Display rng0)).acc_sharpe =
        ((App.recalc normId)^[2] (App.new normId AppMode.Display rng0)).acc_sharpe ∧
      ((App.recalc normId)^[2] (App.new normId AppMode.Display rng0)).sample_sharpe =
        ((App.recalc normId)^[2] (App.new normId AppMode.Display rng0)).sample_sharpe :=
  c6_determinism normId AppMode.Display rng0 rng0 rfl 2

/-- The sample Sharpe computation as the specification words it: annualize
the sample mean by 252 and the population standard deviation (variance
divided by DAYS, not DAYS - 1) by sqrt(252). -/
noncomputable def sample_sharpe_spec (sample : List ℝ) : ℝ :=
  let m := sample.sum / (DAYS : ℝ)
  let variance := (sample.map fun x => (x - m) ^ 2).sum / (DAYS : ℝ)
  let s := Real.sqrt variance
  (m * 252) / (s * Real.sqrt 252)

/-- C7: the code's `calc_sample_sharpe` computes exactly the spec's
formula, and its second component is the sample mean. -/
theorem c7_sample_sharpe_formula (sample : List ℝ) :
    (calc_sample_sharpe sample).1 = sample_sharpe_spec sample ∧
      (calc_sample_sharpe sample).2 = sample.sum / (DAYS : ℝ) :=
  ⟨rfl, rfl⟩

/-- C5: when the buffer does not parse, `submit_guess` is the identity on
the whole application state. -/
theorem c5_parse_failure_noop (a : App) (hm : a.mode = AppMode.Guessing)
    (hs : a.guess_state = GuessState.WaitingForGuess)
    (hp : parseF64 a.current_guess = none) : a.submit_guess = a := by
  unfold App.submit_guess
  rw [if_pos ⟨hm, hs⟩, hp]

/-- C5 witness: submitting an empty buffer changes nothing. -/
theorem c5_parse_failure_noop_witness :
    parseF64 (exApp "").current_guess = none ∧ (exApp "").submit_guess = exApp "" :=
  ⟨rfl, c5_parse_failure_noop (exApp "") rfl rfl rfl⟩

/-- C2: on parse success, `submit_guess` records the parsed guess, scores
it against the selected target with tolerance `0.12 * sharpe_error`
(incrementing the score exactly when within tolerance), and moves the round
to `ShowingResult`. -/
theorem c2_submit_guess_scoring (a : App) (q : ℚ) (hm : a.mode = AppMode.Guessing)
    (hs : a.guess_state = GuessState.WaitingForGuess)
    (hp : parseF64 a.current_guess = some q) :
    a.submit_guess.last_guess = some (q : ℝ) ∧
      (a.submit_guess.guess_was_correct = true ↔
        |(q : ℝ) - a.target_value| ≤ 0.12 * a.get_sharpe_error) ∧
      (a.submit_guess.score = a.score + 1 ↔
        |(q : ℝ) - a.target_value| ≤ 0.12 * a.get_sharpe_error) ∧
      a.submit_guess.guess_state = GuessState.ShowingResult := by
  unfold App.submit_guess
  rw [if_pos ⟨hm, hs⟩, hp]
  dsimp only
  by_cases hc : |(q : ℝ) - a.target_value| ≤ 0.12 * a.get_sharpe_error
  · rw [if_pos hc]
    simp [hc]
  · rw [if_neg hc]
    simp [hc]
    try omega

/-- C2 witness: submitting the buffer "1" at a concrete application. -/
theorem c2_submit_guess_scoring_witness :
    (exApp "1").submit_guess.last_guess = some ((1 : ℚ) : ℝ) ∧
      ((exApp "1").submit_guess.guess_was_correct = true ↔
        |((1 : ℚ) : ℝ) - (exApp "1").target_value| ≤ 0.12 * (exApp "1").get_sharpe_error) ∧
      ((exApp "1").submit_guess.score = (exApp "1").score + 1 ↔
        |((1 : ℚ) : ℝ) - (exApp "1").target_value| ≤ 0.12 * (exApp "1").get_sharpe_error) ∧
      (exApp "1").submit_guess.guess_state = GuessState.ShowingResult :=
  c2_submit_guess_scoring (exApp "1") 1 rfl rfl rfl

/-- Each single operation never decreases the score. -/
lemma step_score_le (norm : ℝ → ℝ) (op : Op) (a : App) :
    a.score ≤ (step norm op a).score := by
  cases op with
  | recalcOp =>
    show a.score ≤ (a.recalc norm).score
    rw [recalc_score]
  | charInput c =>
    show a.score ≤ (a.add_char_to_guess c).score
    unfold App.add_char_to_guess
    split <;> exact le_refl _
  | backspace =>
    show a.score ≤ a.remove_char_from_guess.score
    unfold App.remove_char_from_guess
    split <;> exact le_refl _
  | submitOp =>
    show a.score ≤ a.submit_guess.score
    unfold App.submit_guess
    split
    · split
      · dsimp only
        split
        · exact Nat.le_succ _
        · exact le_refl _
      · exact le_refl _
    · exact le_refl _
  | nextRoundOp =>
    show a.score ≤ (a.next_round norm).score
    unfold App.next_round
    split
    · exact le_of_eq (recalc_score norm a).symm
    · exact le_refl _
  | toggleTargetOp =>
    show a.score ≤ a.toggle_guess_target.score
    unfold App.toggle_guess_target
    split <;> exact le_refl _

/-- C8: across any sequence of controller operations the score never
decreases, and `recalc()` leaves it exactly unchanged. -/
theorem c8_score_monotone (norm : ℝ → ℝ) :
    (∀ (ops : List Op) (a : App), a.score ≤ (run norm ops a).score) ∧
      ∀ a : App, (a.recalc norm).score = a.score := by
  constructor
  · intro ops
    induction ops with
    | nil => intro a; exact le_refl _
    | cons op rest ih =>
      intro a
      exact le_trans (step_score_le norm op a) (ih (step norm op a))
  · intro a
    exact recalc_score norm a

/-- The character class the guess buffer may contain: ASCII digits, the
decimal point, and the minus sign. -/
def goodChar (c : Char) : Prop := c.isDigit = true ∨ c = '.' ∨ c = '-'

/-- The buffer invariant: every character of `current_guess` is in the
allowed class. -/
def goodBuffer (a : App) : Prop := ∀ c ∈ a.current_guess.data, goodChar c

/-- `recalc` either clears the buffer or leaves it unchanged. -/
lemma recalc_current_guess (norm : ℝ → ℝ) (a : App) :
    (a.recalc norm).current_guess = "" ∨
      (a.recalc norm).current_guess = a.current_guess := by
  unfold App.recalc
  split
  · exact Or.inl rfl
  · exact Or.inr rfl

/-- `add_char_to_guess` either leaves the buffer unchanged or appends an
allowed character. -/
lemma add_char_current_guess (a : App) (c : Char) :
    (a.add_char_to_guess c).current_guess = a.current_guess ∨
      ((a.add_char_to_guess c).current_guess = a.current_guess.push c ∧ goodChar c) := by
  unfold App.add_char_to_guess
  split
  · next h => exact Or.inr ⟨rfl, h.2.2⟩
  · exact Or.inl rfl

/-- `remove_char_from_guess` either leaves the buffer unchanged or drops
its last character. -/
lemma remove_char_current_guess (a : App) :
    a.remove_char_from_guess.current_guess = a.current_guess ∨
      a.remove_char_from_guess.current_guess = ⟨a.current_guess.data.dropLast⟩ := by
  unfold App.remove_char_from_guess
  split
  · exact Or.inr rfl
  · exact Or.inl rfl

/-- `submit_guess` never changes the buffer. -/
lemma submit_current_guess (a : App) :
    a.submit_guess.current_guess = a.current_guess := by
  unfold App.submit_guess
  split
  · split
    · dsimp only
      split <;> rfl
    · rfl
  · rfl

/-- `toggle_guess_target` never changes the buffer. -/
lemma toggle_current_guess (a : App) :
    a.toggle_guess_target.current_guess = a.current_guess := by
  unfold App.toggle_guess_target
  split <;> rfl

/-- `recalc` preserves the buffer invariant. -/
lemma recalc_goodBuffer (norm : ℝ → ℝ) (a : App) (h : goodBuffer a) :
    goodBuffer (a.recalc norm) := by
  unfold goodBuffer
  rcases recalc_current_guess norm a with h1 | h1 <;> rw [h1]
  · intro c hc
    exact absurd hc (List.not_mem_nil c)
  · exact h

/-- Each single operation preserves the buffer invariant. -/
lemma step_goodBuffer (norm : ℝ → ℝ) (op : Op) (a : App) (h : goodBuffer a) :
    goodBuffer (step norm op a) := by
  cases op with
  | recalcOp => exact recalc_goodBuffer norm a h
  | charInput c =>
    show goodBuffer (a.add_char_to_guess c)
    unfold goodBuffer
    rcases add_char_current_guess a c with h1 | ⟨h1, hg⟩ <;> rw [h1]
    · exact h
    · intro x hx
      rw [show (a.current_guess.push c).data = a.current_guess.data ++ [c] from rfl] at hx
      rcases List.mem_append.1 hx with hx | hx
      · exact h x hx
      · rw [List.mem_singleton.1 hx]
        exact hg
  | backspace =>
    show goodBuffer a.remove_char_from_guess
    unfold goodBuffer
    rcases remove_char_current_guess a with h1 | h1 <;> rw [h1]
    · exact h
    · intro x hx
      exact h x (List.dropLast_subset _ hx)
  | submitOp =>
    show goodBuffer a.submit_guess
    unfold goodBuffer
    rw [submit_current_guess]
    exact h
  | nextRoundOp =>
    show goodBuffer (a.next_round norm)
    unfold App.next_round
    split
    · exact recalc_goodBuffer norm a h
    · exact h
  | toggleTargetOp =>
    show goodBuffer a.toggle_guess_target
    unfold goodBuffer
    rw [toggle_current_guess]
    exact h

/-- C10: every reachable controller state has a buffer made only of ASCII
digits, the decimal point, and the minus sign. -/
theorem c10_buffer_charclass (norm : ℝ → ℝ) (a : App) (h : Reachable norm a) :
    goodBuffer a := by
  induction h with
  | init mode r0 =>
    intro c hc
    rw [show (App.new norm mode r0).current_guess = "" from rfl] at hc
    exact absurd hc (List.not_mem_nil c)
  | next b op hb ih => exact step_goodBuffer norm op b ih

/-- C10 witness: the invariant at a concrete freshly constructed session. -/
theorem c10_buffer_charclass_witness :
    goodBuffer (App.new normId AppMode.Guessing rng0) :=
  c10_buffer_charclass normId (App.new normId AppMode.Guessing rng0)
    (Reachable.init AppMode.Guessing rng0)

/-! ## Lemmas for the min/mean/max claim -/

/-- A left fold with `min` only descends below its seed. -/
lemma foldl_min_le_init (l : List ℝ) : ∀ a : ℝ, l.foldl min a ≤ a := by
  induction l with
  | nil => intro a; exact le_refl a
  | cons x xs ih => intro a; exact le_trans (ih (min a x)) (min_le_left a x)

/-- A left fold with `min` is below every member of the list. -/
lemma foldl_min_le_mem (l : List ℝ) : ∀ a x : ℝ, x ∈ l → l.foldl min a ≤ x := by
  induction l with
  | nil => intro a x hx; exact absurd hx (List.not_mem_nil x)
  | cons y ys ih =>
    intro a x hx
    rcases List.mem_cons.1 hx with h | h
    · subst h; exact le_trans (foldl_min_le_init ys (min a x)) (min_le_right a x)
    · exact ih (min a y) x h

/-- A left fold with `max` only ascends above its seed. -/
lemma init_le_foldl_max (l : List ℝ) : ∀ a : ℝ, a ≤ l.foldl max a := by
  induction l with
  | nil => intro a; exact le_refl a
  | cons x xs ih => intro a; exact le_trans (le_max_left a x) (ih (max a x))

/-- A left fold with `max` is above every member of the list. -/
lemma mem_le_foldl_max (l : List ℝ) : ∀ a x : ℝ, x ∈ l → x ≤ l.foldl max a := by
  induction l with
  | nil => intro a x hx; exact absurd hx (List.not_mem_nil x)
  | cons y ys ih =>
    intro a x hx
    rcases List.mem_cons.1 hx with h | h
    · subst h; exact le_trans (le_max_right a x) (init_le_foldl_max ys (max a x))
    · exact ih (max a y) x h

/-- A uniform lower bound on a list bounds its sum from below. -/
lemma length_mul_le_sum (l : List ℝ) : ∀ c : ℝ, (∀ x ∈ l, c ≤ x) →
    (l.length : ℝ) * c ≤ l.sum := by
  induction l with
  | nil => intro c _; simp
  | cons x xs ih =>
    intro c h
    have hx := h x (List.mem_cons_self x xs)
    have hxs := ih c fun y hy => h y (List.mem_cons_of_mem x hy)
    rw [List.sum_cons, List.length_cons]
    push_cast
    rw [show ((xs.length : ℝ) + 1) * c = c + (xs.length : ℝ) * c from by ring]
    exact add_le_add hx hxs

/-- A uniform upper bound on a list bounds its sum from above. -/
lemma sum_le_length_mul (l : List ℝ) : ∀ c : ℝ, (∀ x ∈ l, x ≤ c) →
    l.sum ≤ (l.length : ℝ) * c := by
  induction l with
  | nil => intro c _; simp
  | cons x xs ih =>
    intro c h
    have hx := h x (List.mem_cons_self x xs)
    have hxs := ih c fun y hy => h y (List.mem_cons_of_mem x hy)
    rw [List.sum_cons, List.length_cons]
    push_cast
    rw [show ((xs.length : ℝ) + 1) * c = c + (xs.length : ℝ) * c from by ring]
    exact add_le_add hx hxs

/-- The simultaneous min/max pair fold splits into two independent folds. -/
lemma foldl_pair_eq (l : List ℝ) :
    ∀ p : EReal × EReal,
      l.foldl (fun (p : EReal × EReal) (x : ℝ) => (min p.1 ↑x, max p.2 ↑x)) p =
        (l.foldl (fun (m : EReal) (x : ℝ) => min m ↑x) p.1,
          l.foldl (fun (M : EReal) (x : ℝ) => max M ↑x) p.2) := by
  induction l with
  | nil => intro p; rfl
  | cons x xs ih =>
    intro p
    rw [List.foldl_cons, List.foldl_cons, List.foldl_cons]
    exact ih (min p.1 (x : EReal), max p.2 (x : EReal))

/-- The `EReal` min fold of a real list from a real seed is the real min
fold, coerced. -/
lemma foldl_min_coe (l : List ℝ) :
    ∀ a : ℝ, l.foldl (fun (m : EReal) (x : ℝ) => min m ↑x) (a : EReal) =
      ((l.foldl min a : ℝ) : EReal) := by
  induction l with
  | nil => intro a; rfl
  | cons x xs ih =>
    intro a
    rw [List.foldl_cons, List.foldl_cons,
      show min (a : EReal) (x : EReal) = ((min a x : ℝ) : EReal) from
        (EReal.coe_strictMono.monotone.map_min).symm]
    exact ih (min a x)

/-- The `EReal` max fold of a real list from a real seed is the real max
fold, coerced. -/
lemma foldl_max_coe (l : List ℝ) :
    ∀ a : ℝ, l.foldl (fun (M : EReal) (x : ℝ) => max M ↑x) (a : EReal) =
      ((l.foldl max a : ℝ) : EReal) := by
  induction l with
  | nil => intro a; rfl
  | cons x xs ih =>
    intro a
    rw [List.foldl_cons, List.foldl_cons,
      show max (a : EReal) (x : EReal) = ((max a x : ℝ) : EReal) from
        (EReal.coe_strictMono.monotone.map_max).symm]
    exact ih (max a x)

/-- On a nonempty list, the `sample_min_max` fold computes the finite
extrema: the infinite seeds are absorbed by the first element. -/
lemma sample_min_max_cons (x : ℝ) (xs : List ℝ) :
    sample_min_max (x :: xs) =
      (((xs.foldl min x : ℝ) : EReal), ((xs.foldl max x : ℝ) : EReal)) := by
  unfold sample_min_max
  rw [foldl_pair_eq, List.foldl_cons, List.foldl_cons]
  rw [min_eq_right le_top, max_eq_right bot_le]
  rw [foldl_min_coe, foldl_max_coe]

/-- On a nonempty list, the fold minimum is at most the arithmetic mean and
the fold maximum is at least it. -/
lemma minmax_mean (x : ℝ) (xs : List ℝ) :
    (sample_min_max (x :: xs)).1 ≤
        ((((x :: xs).sum / ((x :: xs).length : ℝ)) : ℝ) : EReal) ∧
      ((((x :: xs).sum / ((x :: xs).length : ℝ)) : ℝ) : EReal) ≤
        (sample_min_max (x :: xs)).2 := by
  have hlen : (0 : ℝ) < ((x :: xs).length : ℝ) := by
    rw [List.length_cons]
    push_cast
    positivity
  rw [sample_min_max_cons]
  constructor
  · rw [show ((((xs.foldl min x : ℝ) : EReal), ((xs.foldl max x : ℝ) : EReal))).1 =
        ((xs.foldl min x : ℝ) : EReal) from rfl]
    rw [EReal.coe_le_coe_iff]
    have hlb : ∀ y ∈ x :: xs, xs.foldl min x ≤ y := by
      intro y hy
      rcases List.mem_cons.1 hy with h | h
      · rw [h]; exact foldl_min_le_init xs x
      · exact foldl_min_le_mem xs x y h
    rw [le_div_iff₀ hlen, mul_comm]
    exact length_mul_le_sum (x :: xs) _ hlb
  · rw [show ((((xs.foldl min x : ℝ) : EReal), ((xs.foldl max x : ℝ) : EReal))).2 =
        ((xs.foldl max x : ℝ) : EReal) from rfl]
    rw [EReal.coe_le_coe_iff]
    have hub : ∀ y ∈ x :: xs, y ≤ xs.foldl max x := by
      intro y hy
      rcases List.mem_cons.1 hy with h | h
      · rw [h]; exact init_le_foldl_max xs x
      · exact mem_le_foldl_max xs x y h
    rw [div_le_iff₀ hlen, mul_comm]
    exact sum_le_length_mul (x :: xs) _ hub

/-- For a series of length DAYS, the fold minimum is at most the reported
mean and the fold maximum is at least it. -/
lemma mean_between_of_length (l : List ℝ) (h : l.length = DAYS) :
    (sample_min_max l).1 ≤ (((calc_sample_sharpe l).2 : ℝ) : EReal) ∧
      (((calc_sample_sharpe l).2 : ℝ) : EReal) ≤ (sample_min_max l).2 := by
  obtain ⟨x, xs, hx⟩ := List.exists_cons_of_ne_nil (l := l) (by
    intro h0
    rw [h0] at h
    simp [DAYS] at h)
  subst hx
  rw [show (calc_sample_sharpe (x :: xs)).2 = (x :: xs).sum / (DAYS : ℝ) from rfl, ← h]
  exact minmax_mean x xs

/-- C9: in every generated round the reported minimum is at most the
reported mean, which is at most the reported maximum. -/
theorem c9_min_mean_max (norm : ℝ → ℝ) (r : Rng) :
    ((gen_random_dist norm r).1.2).sample_min ≤
        ((((gen_random_dist norm r).1.2).sample_mean : ℝ) : EReal) ∧
      ((((gen_random_dist norm r).1.2).sample_mean : ℝ) : EReal) ≤
        ((gen_random_dist norm r).1.2).sample_max := by
  unfold gen_random_dist
  dsimp only
  exact mean_between_of_length _ (gen_return_series_length norm _ _)

end GuessTheSharpe
